import Mathlib

/-!
Verification of the IMC-Prosperity-2 round-3 trading engine (`round_3.py`).

The Python engine is shallowly embedded: integer quantities, positions and
book prices are `ℤ`; fair values, VWAPs and configuration spreads (Python
floats) are `ℚ`; code paths that can raise a Python exception (empty book
side, zero side volume, `statistics.linear_regression` preconditions,
`jsonpickle.decode` failure) return `Option`.
-/

namespace Prosperity

/-- One exchange order `Order(symbol, price, quantity)`; quantity is signed
(positive buys, negative sells). -/
structure Order where
  symbol : String
  price : ℤ
  quantity : ℤ
  deriving Repr, DecidableEq, Inhabited

/-- Quantity resting in a book (a price-ordered association list mirroring the
Python `OrderedDict`) at a given price; `d[p]` in Python, defaulting to 0 on
a missing key (the engine only looks up keys that are present). -/
def lookupQty (book : List (ℤ × ℤ)) (price : ℤ) : ℤ :=
  match book.find? (fun pq => pq.1 == price) with
  | some pq => pq.2
  | none => 0

/-- Sum of all resting quantities on one side, `sum(d.values())`. -/
def listVolume (book : List (ℤ × ℤ)) : ℤ :=
  (book.map Prod.snd).sum

/-- Cash needed to sweep one side, `sum(p * q for p, q in d.items())`. -/
def listSweep (book : List (ℤ × ℤ)) : ℤ :=
  (book.map (fun pq => pq.1 * pq.2)).sum

/-- Maximum price key of a side, `max(d.keys())`; callers guarantee the side
is non-empty, the default is never reached. -/
def maxPrice (book : List (ℤ × ℤ)) : ℤ :=
  ((book.map Prod.fst).max?).getD 0

/-- Minimum price key of a side, `min(d.keys())`. -/
def minPrice (book : List (ℤ × ℤ)) : ℤ :=
  ((book.map Prod.fst).min?).getD 0

/-- State built by `Strategy.__init__`: configuration, snapshot-derived book
features, and the per-tick order ledger (`orders`, `expected_position`,
`sum_buy_qty`, `sum_sell_qty`). -/
structure StrategyState where
  symbol : String
  position_limit : ℤ
  timestamp : ℤ
  position : ℤ
  bids : List (ℤ × ℤ)
  asks : List (ℤ × ℤ)
  best_bid : ℤ
  best_ask : ℤ
  worst_bid : ℤ
  worst_ask : ℤ
  bid_volume : ℤ
  ask_volume : ℤ
  bid_vwap : ℚ
  ask_vwap : ℚ
  mid_vwap : ℚ
  orders : List Order
  expected_position : ℤ
  sum_buy_qty : ℤ
  sum_sell_qty : ℤ
  deriving Repr, DecidableEq, Inhabited

namespace Strategy

/-- Embeds `Strategy.__init__`. `max()` / `min()` of an empty side and the
VWAP divisions by a zero side volume raise in Python, hence `Option`:
`none` models the constructor raising and the tick failing. -/
def init (symbol : String) (position_limit : ℤ) (timestamp : ℤ) (position : ℤ)
    (bids asks : List (ℤ × ℤ)) : Option StrategyState :=
  if bids ≠ [] ∧ asks ≠ [] ∧ listVolume bids ≠ 0 ∧ listVolume asks ≠ 0 then
    let bid_vwap : ℚ := (listSweep bids : ℚ) / (listVolume bids : ℚ)
    let ask_vwap : ℚ := (listSweep asks : ℚ) / (listVolume asks : ℚ)
    some { symbol := symbol
           position_limit := position_limit
           timestamp := timestamp
           position := position
           bids := bids
           asks := asks
           best_bid := maxPrice bids
           best_ask := minPrice asks
           worst_bid := minPrice bids
           worst_ask := maxPrice asks
           bid_volume := listVolume bids
           ask_volume := listVolume asks
           bid_vwap := bid_vwap
           ask_vwap := ask_vwap
           mid_vwap := (bid_vwap + ask_vwap) / 2
           orders := []
           expected_position := position
           sum_buy_qty := 0
           sum_sell_qty := 0 }
  else none

end Strategy

/-- State of a `MarketMaking` strategy object: the base state plus the
strategy configuration read in `MarketMaking.__init__`. -/
structure MMState extends StrategyState where
  fair_value : ℚ
  sl_inventory : ℤ
  sl_spread : ℚ
  mm_spread : ℚ
  order_skew : ℚ
  deriving Repr, DecidableEq, Inhabited

namespace MarketMaking

/-- Embeds `MarketMaking.__init__` (base construction plus configuration). -/
def init (symbol : String) (position_limit : ℤ) (timestamp : ℤ) (position : ℤ)
    (bids asks : List (ℤ × ℤ)) (fair_value : ℚ) (sl_inventory : ℤ)
    (sl_spread mm_spread order_skew : ℚ) : Option MMState :=
  (Strategy.init symbol position_limit timestamp position bids asks).map
    (fun st => { toStrategyState := st
                 fair_value := fair_value
                 sl_inventory := sl_inventory
                 sl_spread := sl_spread
                 mm_spread := mm_spread
                 order_skew := order_skew })

/-- Embeds `MarketMaking.scratch_under_valued`: take the best bid (sell) when
it is at or above the reserve price, or the best ask (buy) when at or below
it, only inside the stop-loss inventory band and only when the touched side
has at least two levels. -/
def scratch_under_valued (s : MMState) (mid_vwap : Bool) : MMState :=
  let reserve_price : ℚ := if mid_vwap then s.mid_vwap else s.fair_value
  if -s.sl_inventory ≤ s.position ∧ s.position ≤ s.sl_inventory then
    if reserve_price ≤ (s.best_bid : ℚ) ∧ 2 ≤ s.bids.length then
      let order_quantity :=
        min (max (-(lookupQty s.bids s.best_bid)) (-s.position_limit - min s.position 0)) 0
      { s with orders := s.orders ++ [{ symbol := s.symbol, price := s.best_bid,
                                        quantity := order_quantity }]
               expected_position := s.expected_position + order_quantity
               sum_sell_qty := s.sum_sell_qty + order_quantity }
    else if (s.best_ask : ℚ) ≤ reserve_price ∧ 2 ≤ s.asks.length then
      let order_quantity :=
        max (min (-(lookupQty s.asks s.best_ask)) (s.position_limit - max s.position 0)) 0
      { s with orders := s.orders ++ [{ symbol := s.symbol, price := s.best_ask,
                                        quantity := order_quantity }]
               expected_position := s.expected_position + order_quantity
               sum_buy_qty := s.sum_buy_qty + order_quantity }
    else s
  else s

/-- Embeds `MarketMaking.stop_loss`: liquidate toward the inventory band when
position exceeds it and the touch price is within `sl_spread` of fair value. -/
def stop_loss (s : MMState) (ignore_worst : Bool) : MMState :=
  if s.sl_inventory < s.position ∧ s.fair_value - s.sl_spread ≤ (s.best_bid : ℚ) then
    if (if ignore_worst then (1 : ℕ) else 0) + 1 ≤ s.bids.length then
      let order_quantity := max (-(lookupQty s.bids s.best_bid)) (-s.position + s.sl_inventory)
      { s with orders := s.orders ++ [{ symbol := s.symbol, price := s.best_bid,
                                        quantity := order_quantity }]
               expected_position := s.expected_position + order_quantity
               sum_sell_qty := s.sum_sell_qty + order_quantity }
    else s
  else if s.position < -s.sl_inventory ∧ (s.best_ask : ℚ) ≤ s.fair_value + s.sl_spread then
    if (if ignore_worst then (1 : ℕ) else 0) + 1 ≤ s.asks.length then
      let order_quantity := min (-(lookupQty s.asks s.best_ask)) (-s.position - s.sl_inventory)
      { s with orders := s.orders ++ [{ symbol := s.symbol, price := s.best_ask,
                                        quantity := order_quantity }]
               expected_position := s.expected_position + order_quantity
               sum_buy_qty := s.sum_buy_qty + order_quantity }
    else s
  else s

/-- Embeds `MarketMaking.market_make`: two-sided quote around fair value with
the four-way capacity bound and inventory skew; it appends the two orders
without touching `expected_position`. -/
def market_make (s : MMState) : MMState :=
  let bid_limit :=
    max (min (min (min s.position_limit (s.position_limit - s.position))
      (s.position_limit - s.expected_position))
      (s.position_limit - s.sum_buy_qty - s.position)) 0
  let ask_limit :=
    min (max (max (max (-s.position_limit) (-s.position_limit - s.position))
      (-s.position_limit - s.expected_position))
      (-s.position_limit - s.sum_sell_qty - s.position)) 0
  let bid_skew : ℤ := ⌈s.order_skew * ((max s.expected_position 0 : ℤ) : ℚ)⌉
  let ask_skew : ℤ := ⌊s.order_skew * ((min s.expected_position 0 : ℤ) : ℚ)⌋
  let bid_quantity := min (max (bid_limit - bid_skew) 0) bid_limit
  let ask_quantity := max (min (ask_limit - ask_skew) 0) ask_limit
  let bid_price : ℤ := ⌈s.fair_value - s.mm_spread⌉
  let ask_price : ℤ := ⌊s.fair_value + s.mm_spread⌋
  { s with orders := s.orders ++
      [{ symbol := s.symbol, price := bid_price, quantity := bid_quantity },
       { symbol := s.symbol, price := ask_price, quantity := ask_quantity }] }

/-- Embeds `MarketMaking.aggregate_orders` keeping the final state:
scratch, then stop loss, then market make. -/
def aggregate_orders_state (s : MMState) (ignore_worst_sl : Bool) : MMState :=
  market_make (stop_loss (scratch_under_valued s false) ignore_worst_sl)

/-- Embeds `MarketMaking.aggregate_orders` (the returned order list). -/
def aggregate_orders (s : MMState) (ignore_worst_sl : Bool) : List Order :=
  (aggregate_orders_state s ignore_worst_sl).orders

end MarketMaking

/-- Signed sum of the quantities of a list of orders: the position change if
every order in the list is fully filled. -/
def ordersSum (l : List Order) : ℤ :=
  (l.map Order.quantity).sum

/-- Embeds `statistics.linear_regression`: ordinary least squares
`slope = sxy / sxx`, `intercept = ybar - slope * xbar`. The Python function
raises `StatisticsError` when the inputs have different lengths, fewer than
two points, or a constant `x` series (`sxx = 0`); those cases are `none`. -/
def linear_regression (xs ys : List ℚ) : Option (ℚ × ℚ) :=
  let n : ℚ := xs.length
  if xs.length = ys.length ∧ 2 ≤ xs.length then
    let xbar := xs.sum / n
    let ybar := ys.sum / n
    let sxy := ((xs.zip ys).map (fun p => (p.1 - xbar) * (p.2 - ybar))).sum
    let sxx := (xs.map (fun x => (x - xbar) ^ 2)).sum
    if sxx = 0 then none
    else
      let slope := sxy / sxx
      some (slope, ybar - slope * xbar)
  else none

/-- State of a `LinearRegressionMM` strategy object. -/
structure LRState extends MMState where
  min_window_size : ℕ
  max_window_size : ℕ
  predict_shift : ℤ
  deriving Repr, DecidableEq, Inhabited

namespace LinearRegressionMM

/-- Embeds `LinearRegressionMM.__init__`. -/
def init (symbol : String) (position_limit : ℤ) (timestamp : ℤ) (position : ℤ)
    (bids asks : List (ℤ × ℤ)) (fair_value : ℚ) (sl_inventory : ℤ)
    (sl_spread mm_spread order_skew : ℚ)
    (min_window_size max_window_size : ℕ) (predict_shift : ℤ) : Option LRState :=
  (MarketMaking.init symbol position_limit timestamp position bids asks fair_value
      sl_inventory sl_spread mm_spread order_skew).map
    (fun st => { toMMState := st
                 min_window_size := min_window_size
                 max_window_size := max_window_size
                 predict_shift := predict_shift })

/-- Embeds `LinearRegressionMM.predict_price`: with at least
`min_window_size` points, regress the history on the timestamps
`100 * i` for `i` in `range(t - n + 1, t + 1)` where `t = timestamp / 100`,
extrapolate `predict_shift` ticks ahead and store the result as the fair
value; below the window fall back to the current mid VWAP. A
`StatisticsError` raised by the regression propagates (`none`). -/
def predict_price (s : LRState) (price_history : List ℚ) : Option LRState :=
  let n := price_history.length
  if s.min_window_size ≤ n then
    let t : ℤ := s.timestamp / 100
    let xs : List ℚ := (List.range n).map (fun i : ℕ => 100 * ((t : ℚ) - (n : ℚ) + 1 + (i : ℚ)))
    let ys := price_history
    match linear_regression xs ys with
    | some si =>
        some { s with fair_value := si.1 * ((s.timestamp : ℚ) + 100 * (s.predict_shift : ℚ)) + si.2 }
    | none => none
  else
    some { s with fair_value := s.mid_vwap }

end LinearRegressionMM

/-- Conversion observation for one symbol, as supplied by the host
(`state.observations.conversionObservations[symbol]`). -/
structure ConversionObservation where
  bidPrice : ℚ
  askPrice : ℚ
  transportFees : ℚ
  exportTariff : ℚ
  importTariff : ℚ
  sunlight : ℚ
  humidity : ℚ
  deriving Repr, DecidableEq, Inhabited

/-- State of an `OTCArbitrage` strategy object. -/
structure OTCState extends StrategyState where
  unit_cost_storing : ℚ
  otc_bid : ℚ
  otc_ask : ℚ
  cost_import : ℚ
  cost_export : ℚ
  sunlight : ℚ
  humidity : ℚ
  conversions : ℤ
  expected_storage_time : ℚ
  effective_cost_export : ℚ
  min_edge : ℚ
  mm_edge : ℚ
  deriving Repr, DecidableEq, Inhabited

namespace OTCArbitrage

/-- Embeds `OTCArbitrage.__init__`. -/
def init (symbol : String) (position_limit : ℤ) (timestamp : ℤ) (position : ℤ)
    (bids asks : List (ℤ × ℤ)) (observation : ConversionObservation)
    (unit_cost_storing expected_storage_time min_edge mm_edge : ℚ) : Option OTCState :=
  (Strategy.init symbol position_limit timestamp position bids asks).map
    (fun st =>
      let cost_export := observation.transportFees + observation.exportTariff
      { toStrategyState := st
        unit_cost_storing := unit_cost_storing
        otc_bid := observation.bidPrice
        otc_ask := observation.askPrice
        cost_import := observation.transportFees + observation.importTariff
        cost_export := cost_export
        sunlight := observation.sunlight
        humidity := observation.humidity
        conversions := 0
        expected_storage_time := expected_storage_time
        effective_cost_export := cost_export + expected_storage_time * unit_cost_storing
        min_edge := min_edge
        mm_edge := mm_edge })

/-- The `for price, quantity in self.asks.items()` loop of the long branch of
`arbitrage_exchange_enter`: consume each ask level whose individual edge
clears `min_edge`, stop at the first that does not. -/
def arb_enter_long (s : OTCState) : List (ℤ × ℤ) → OTCState
  | [] => s
  | (price, quantity) :: rest =>
      if s.min_edge ≤ s.otc_bid - (price : ℚ) - s.effective_cost_export then
        let order_quantity :=
          max (min (-quantity) (s.position_limit - max s.expected_position 0)) 0
        arb_enter_long
          { s with orders := s.orders ++ [{ symbol := s.symbol, price := price,
                                            quantity := order_quantity }]
                   expected_position := s.expected_position + order_quantity
                   sum_buy_qty := s.sum_buy_qty + order_quantity } rest
      else s

/-- The `for price, quantity in self.bids.items()` loop of the short branch of
`arbitrage_exchange_enter`. Note the source sizes and prices every take from
`self.bids[self.best_bid]` and `self.best_bid`, not from the level being
walked; the embedding reproduces that. -/
def arb_enter_short (s : OTCState) : List (ℤ × ℤ) → OTCState
  | [] => s
  | (price, _quantity) :: rest =>
      if s.min_edge ≤ (price : ℚ) - s.otc_ask - s.cost_import then
        let order_quantity :=
          min (max (-(lookupQty s.bids s.best_bid)) (-s.position_limit - min s.expected_position 0)) 0
        arb_enter_short
          { s with orders := s.orders ++ [{ symbol := s.symbol, price := s.best_bid,
                                            quantity := order_quantity }]
                   expected_position := s.expected_position + order_quantity
                   sum_sell_qty := s.sum_sell_qty + order_quantity } rest
      else s

/-- Embeds `OTCArbitrage.arbitrage_exchange_enter`: compute the two one-way
edges, pick the larger (ties go to the long side, matching `max` over the
dict `{"Long": .., "Short": ..}`), and walk the chosen side's levels if the
edge clears `min_edge`. -/
def arbitrage_exchange_enter (s : OTCState) : OTCState :=
  let long_arb_edge := s.otc_bid - (s.best_ask : ℚ) - s.effective_cost_export
  let short_arb_edge := (s.best_bid : ℚ) - s.otc_ask - s.cost_import
  if short_arb_edge ≤ long_arb_edge then
    if s.min_edge ≤ long_arb_edge then arb_enter_long s s.asks else s
  else
    if s.min_edge ≤ short_arb_edge then arb_enter_short s s.bids else s

/-- Embeds `OTCArbitrage.market_make`: quote around the arbitrage-free
prices with the four-way capacity bound. -/
def market_make (s : OTCState) : OTCState :=
  let bid_quantity :=
    max (min (min (min s.position_limit (s.position_limit - s.position))
      (s.position_limit - s.expected_position))
      (s.position_limit - s.sum_buy_qty - s.position)) 0
  let ask_quantity :=
    min (max (max (max (-s.position_limit) (-s.position_limit - s.position))
      (-s.position_limit - s.expected_position))
      (-s.position_limit - s.sum_sell_qty - s.position)) 0
  let bid_arb_free := s.otc_bid - s.effective_cost_export
  let ask_arb_free := s.otc_ask + s.cost_import
  let bid_price : ℤ := ⌊bid_arb_free - s.mm_edge⌋
  let ask_price : ℤ := ⌈ask_arb_free + s.mm_edge⌉
  { s with orders := s.orders ++
      [{ symbol := s.symbol, price := bid_price, quantity := bid_quantity },
       { symbol := s.symbol, price := ask_price, quantity := ask_quantity }] }

/-- Embeds `OTCArbitrage.arbitrage_otc_exit`: convert the whole remaining
position through the OTC venue, `conversions = -position`. -/
def arbitrage_otc_exit (s : OTCState) : OTCState :=
  { s with conversions := -s.position }

/-- Embeds `OTCArbitrage.aggregate_orders_conversions` keeping the state. -/
def aggregate_state (s : OTCState) : OTCState :=
  arbitrage_otc_exit (market_make (arbitrage_exchange_enter s))

/-- Embeds `OTCArbitrage.aggregate_orders_conversions` (returned pair). -/
def aggregate_orders_conversions (s : OTCState) : List Order × ℤ :=
  ((aggregate_state s).orders, (aggregate_state s).conversions)

end OTCArbitrage

/-- Per-tick input from the host (`TradingState`). The carried-state blob is
`Option (List ℚ)`: `some d` is a parseable `jsonpickle` encoding of the
rolling STARFRUIT history `d`; `none` is an absent, empty or unparseable
blob, on which `jsonpickle.decode` raises. -/
structure TradingState where
  timestamp : ℤ
  traderData : Option (List ℚ)
  bids : String → List (ℤ × ℤ)
  asks : String → List (ℤ × ℤ)
  position : String → ℤ
  observations : String → ConversionObservation

/-- State of a `BasketTrading` object: the basket `MarketMaking` object plus
the premium statistics computed in `BasketTrading.__init__`. -/
structure BasketState where
  basket : MMState
  premium_mean : ℚ
  premium_std : ℚ
  alpha : ℚ
  beta : ℚ
  sl_target : ℤ
  carry : ℚ
  basket_nav : ℚ
  premium : ℚ
  z_score : ℚ
  deriving Repr, DecidableEq, Inhabited

namespace BasketTrading

/-- Embeds `BasketTrading.__init__`. `constituents` lists
`(symbol, position_limit, units per basket)`; each constituent is built as a
plain `Strategy` (so an empty side there also fails the tick), the basket
position limit becomes `min(floor(min(limit / ratio)), basket limit)` and the
basket fair value is initialised to the basket mid VWAP. -/
def init (state : TradingState) (basket_symbol : String) (basket_limit0 : ℤ)
    (fair_value : ℚ) (sl_inventory : ℤ) (sl_spread mm_spread order_skew : ℚ)
    (constituents : List (String × ℤ × ℚ))
    (premium_mean premium_std alpha beta : ℚ) (sl_target : ℤ) (carry : ℚ) :
    Option BasketState := do
  let basket0 ← MarketMaking.init basket_symbol basket_limit0 state.timestamp
      (state.position basket_symbol) (state.bids basket_symbol) (state.asks basket_symbol)
      fair_value sl_inventory sl_spread mm_spread order_skew
  let cs ← constituents.mapM (fun c =>
      (Strategy.init c.1 c.2.1 state.timestamp (state.position c.1)
        (state.bids c.1) (state.asks c.1)).map (fun st => (st, c.2.2)))
  let ratio_caps : List ℚ := cs.map (fun p => (p.1.position_limit : ℚ) / p.2)
  let m ← ratio_caps.min?
  let basket_limit : ℤ := min ⌊m⌋ basket0.position_limit
  let basket_nav := (cs.map (fun p => p.2 * p.1.mid_vwap)).sum
  let premium := basket0.mid_vwap - basket_nav
  some { basket := { basket0 with fair_value := basket0.mid_vwap
                                  position_limit := basket_limit }
         premium_mean := premium_mean
         premium_std := premium_std
         alpha := alpha
         beta := beta
         sl_target := sl_target
         carry := carry
         basket_nav := basket_nav
         premium := premium
         z_score := (premium - premium_mean) / premium_std }

/-- Embeds `BasketTrading.calculate_fair_value`: shift the basket fair value
by `-(premium - mean) * (alpha * abs z + beta * z ^ 2)`. -/
def calculate_fair_value (b : BasketState) : BasketState :=
  let demeaned_premium := b.premium - b.premium_mean
  let scaling_coefficient := b.alpha * |b.z_score| + b.beta * b.z_score ^ 2
  let pricing_shift := -demeaned_premium * scaling_coefficient
  { b with basket := { b.basket with fair_value := b.basket.fair_value + pricing_shift } }

/-- Embeds `BasketTrading.aggressive_stop_loss`: outside the inventory band,
liquidate toward `sl_target` with the full side volume at the worst price. -/
def aggressive_stop_loss (b : BasketState) : BasketState :=
  if b.basket.sl_inventory < b.basket.position then
    let order_quantity := max (-b.basket.bid_volume) (b.sl_target - b.basket.position)
    let sl_order : Order :=
      { symbol := b.basket.symbol, price := b.basket.worst_bid, quantity := order_quantity }
    { b with basket :=
        { b.basket with
            orders := b.basket.orders ++ [sl_order],
            expected_position := b.basket.expected_position + order_quantity,
            sum_sell_qty := b.basket.sum_sell_qty + order_quantity } }
  else if b.basket.position < -b.basket.sl_inventory then
    let order_quantity := min (-b.basket.ask_volume) (-b.sl_target - b.basket.position)
    let sl_order : Order :=
      { symbol := b.basket.symbol, price := b.basket.worst_ask, quantity := order_quantity }
    { b with basket :=
        { b.basket with
            orders := b.basket.orders ++ [sl_order],
            expected_position := b.basket.expected_position + order_quantity,
            sum_buy_qty := b.basket.sum_buy_qty + order_quantity } }
  else b

/-- First two steps of `aggregate_basket_orders`: the fair value correction
followed by the scratch against mid VWAP. -/
def step_scratch (b : BasketState) : BasketState :=
  let b1 := calculate_fair_value b
  { b1 with basket := MarketMaking.scratch_under_valued b1.basket true }

/-- Third step of `aggregate_basket_orders`: the aggressive stop loss. -/
def step_stop (b : BasketState) : BasketState :=
  aggressive_stop_loss (step_scratch b)

/-- Embeds `BasketTrading.aggregate_basket_orders` keeping the state:
fair value correction, scratch against mid VWAP, aggressive stop loss,
market make. -/
def aggregate_state (b : BasketState) : BasketState :=
  let b3 := step_stop b
  { b3 with basket := MarketMaking.market_make b3.basket }

/-- Embeds `BasketTrading.aggregate_basket_orders` (returned order list). -/
def aggregate_basket_orders (b : BasketState) : List Order :=
  (aggregate_state b).basket.orders

end BasketTrading

/-- Output of one `Trader.run` call: the per-symbol order lists (in insertion
order), the conversion request, and the rolling history that is both kept in
`Trader.data` and sent on as the encoded `traderData` blob. -/
structure RunOutput where
  result : List (String × List Order)
  conversions : ℤ
  traderData : List ℚ
  deriving Repr, DecidableEq, Inhabited

namespace Trader

/-- Embeds `Trader.restore_data`. `data_loss` in the source is
`any(bool(v) for v in self.data.values())`, which is true exactly when the
in-memory rolling history is non-empty; in that case (after timestamp 100)
the blob is decoded, and a decode failure raises (`none`). -/
def restore_data (data : List ℚ) (timestamp : ℤ) (encoded_data : Option (List ℚ)) :
    Option (List ℚ) :=
  if 100 ≤ timestamp ∧ data ≠ [] then encoded_data else some data

/-- Embeds `Trader.store_data` for the STARFRUIT queue: pop from the left
while the queue is at capacity, then append the new value. -/
def store_data (data : List ℚ) (value : ℚ) (max_size : ℕ) : List ℚ :=
  (if max_size ≠ 0 then data.drop (data.length + 1 - max_size) else data) ++ [value]

/-- The body of `Trader.run` after `restore_data`, with the configuration
constants of `Trader.config` inlined: AMETHYSTS fixed-fair-value market
making, STARFRUIT regression market making (updating the rolling history),
ORCHIDS OTC arbitrage, and GIFT_BASKET basket trading with its three
constituents. -/
def run_after_restore (data1 : List ℚ) (state : TradingState) : Option RunOutput := do
  let am ← MarketMaking.init "AMETHYSTS" 20 state.timestamp (state.position "AMETHYSTS")
      (state.bids "AMETHYSTS") (state.asks "AMETHYSTS") 10000 20 1 2 1
  let amOrders := MarketMaking.aggregate_orders am true
  let sf ← LinearRegressionMM.init "STARFRUIT" 20 state.timestamp (state.position "STARFRUIT")
      (state.bids "STARFRUIT") (state.asks "STARFRUIT") 5000 10 1 2 1 5 10 1
  let data2 := store_data data1 sf.mid_vwap sf.max_window_size
  let sf1 ← LinearRegressionMM.predict_price sf data2
  let sfOrders := MarketMaking.aggregate_orders sf1.toMMState true
  let orc ← OTCArbitrage.init "ORCHIDS" 100 state.timestamp (state.position "ORCHIDS")
      (state.bids "ORCHIDS") (state.asks "ORCHIDS") (state.observations "ORCHIDS")
      (1 / 10) 1 1 (3 / 2)
  let orcPair := OTCArbitrage.aggregate_orders_conversions orc
  let bt ← BasketTrading.init state "GIFT_BASKET" 60 70000 57 1 2 1
      [("CHOCOLATE", 250, 4), ("STRAWBERRIES", 350, 6), ("ROSES", 60, 1)]
      385 75 1 0 0 2
  let bOrders := BasketTrading.aggregate_basket_orders bt
  some { result := [("AMETHYSTS", amOrders), ("STARFRUIT", sfOrders),
                    ("ORCHIDS", orcPair.1), ("GIFT_BASKET", bOrders)],
         conversions := orcPair.2,
         traderData := data2 }

/-- Embeds `Trader.run`: restore the rolling history from the carried blob,
then run the four per-instrument strategies. `data` is the in-memory
class-level `Trader.data` queue at call time; the returned `traderData` is
both the new in-memory queue and the content of the encoded blob handed back
to the host. -/
def run (data : List ℚ) (state : TradingState) : Option RunOutput := do
  let data1 ← restore_data data state.timestamp state.traderData
  run_after_restore data1 state

end Trader

/-! Invariant vocabulary used by the position-limit claims. -/

/-- A signed inventory is within the symmetric position limit. -/
def InLimit (limit x : ℤ) : Prop :=
  -limit ≤ x ∧ x ≤ limit

/-- The per-tick ledger as `Strategy.__init__` leaves it: no orders yet,
expected position equal to the current position, both running totals zero. -/
def FreshLedger (s : StrategyState) : Prop :=
  s.expected_position = s.position ∧ s.sum_buy_qty = 0 ∧ s.sum_sell_qty = 0 ∧ s.orders = []

/-- Host book convention: bid quantities are nonnegative, ask quantities are
nonpositive (also at the aggregated volume level). -/
def BookSigns (s : StrategyState) : Prop :=
  0 ≤ lookupQty s.bids s.best_bid ∧ lookupQty s.asks s.best_ask ≤ 0 ∧
  0 ≤ s.bid_volume ∧ s.ask_volume ≤ 0

/-- Ledger soundness after market-taking sub-strategies: the running totals
have the right signs, `expected_position` is the optimistic-fill position,
the emitted orders sum to the running totals, and each one-sided total keeps
the one-sided fill inside the limit. -/
def LedgerInv (s : StrategyState) : Prop :=
  0 ≤ s.sum_buy_qty ∧ s.sum_sell_qty ≤ 0 ∧
  s.expected_position = s.position + s.sum_buy_qty + s.sum_sell_qty ∧
  ordersSum s.orders = s.sum_buy_qty + s.sum_sell_qty ∧
  s.position + s.sum_buy_qty ≤ s.position_limit ∧
  -s.position_limit ≤ s.position + s.sum_sell_qty

instance (limit x : ℤ) : Decidable (InLimit limit x) := by
  unfold InLimit
  infer_instance

instance (s : StrategyState) : Decidable (FreshLedger s) := by
  unfold FreshLedger
  infer_instance

instance (s : StrategyState) : Decidable (BookSigns s) := by
  unfold BookSigns
  infer_instance

instance (s : StrategyState) : Decidable (LedgerInv s) := by
  unfold LedgerInv
  infer_instance

/-! Concrete fixtures used by witnesses and counterexamples. -/

/-- A benign ORCHIDS conversion observation. -/
def obs0 : ConversionObservation :=
  { bidPrice := 1000, askPrice := 1002, transportFees := 1, exportTariff := 1,
    importTariff := 1, sunlight := 0, humidity := 0 }

/-- Bid books for a benign snapshot: every instrument has one bid level. -/
def bids0 : String → List (ℤ × ℤ) := fun sym =>
  if sym = "AMETHYSTS" then [(9998, 5)]
  else if sym = "STARFRUIT" then [(5000, 10)]
  else if sym = "ORCHIDS" then [(1000, 10)]
  else if sym = "GIFT_BASKET" then [(71000, 5)]
  else if sym = "CHOCOLATE" then [(8000, 10)]
  else if sym = "STRAWBERRIES" then [(4000, 10)]
  else if sym = "ROSES" then [(15000, 10)]
  else []

/-- Ask books for a benign snapshot: every instrument has one ask level. -/
def asks0 : String → List (ℤ × ℤ) := fun sym =>
  if sym = "AMETHYSTS" then [(10002, -5)]
  else if sym = "STARFRUIT" then [(5002, -10)]
  else if sym = "ORCHIDS" then [(1002, -10)]
  else if sym = "GIFT_BASKET" then [(71010, -5)]
  else if sym = "CHOCOLATE" then [(8010, -10)]
  else if sym = "STRAWBERRIES" then [(4010, -10)]
  else if sym = "ROSES" then [(15010, -10)]
  else []

/-- A benign snapshot at timestamp 100 whose carried blob holds a linear
four-point STARFRUIT history. -/
def state0 : TradingState :=
  { timestamp := 100, traderData := some [4000, 4200, 4400, 4600],
    bids := bids0, asks := asks0, position := fun _ => 0, observations := fun _ => obs0 }

/-- The same snapshot with an absent / unparseable carried blob. -/
def state_noblob : TradingState :=
  { state0 with traderData := none }

/-- The same snapshot except that the AMETHYSTS bid side is empty. -/
def state_emptyside : TradingState :=
  { state0 with bids := fun sym => if sym = "AMETHYSTS" then [] else bids0 sym }

/-- Output of the first `Trader.run` call on `state0` from a fresh trader. -/
def run_out1 : RunOutput :=
  (Trader.run [] state0).getD default

/-- Output of a second identical `Trader.run` call, after the first call has
mutated the class-level rolling history. -/
def run_out2 : RunOutput :=
  (Trader.run run_out1.traderData state0).getD default

/-- ORCHIDS observation that makes the short arbitrage side attractive:
OTC ask 90 against exchange bids at 100 and 99, all costs zero. -/
def obs_short : ConversionObservation :=
  { bidPrice := 50, askPrice := 90, transportFees := 0, exportTariff := 0,
    importTariff := 0, sunlight := 0, humidity := 0 }

/-- OTC strategy state for the short-arbitrage walk: two bid levels
`(100, 5)` and `(99, 4)`, both of whose edges clear the minimum edge 1. -/
def otc_short : OTCState :=
  (OTCArbitrage.init "ORCHIDS" 100 0 0 [(100, 5), (99, 4)] [(200, -5)] obs_short
    0 1 1 1).getD default

/-- A small concrete market-making state used by witnesses. -/
def mm_w : MMState :=
  (MarketMaking.init "AMETHYSTS" 20 0 0 [(9998, 5), (9997, 3)] [(10002, -5), (10003, -3)]
    10000 20 1 2 1).getD default

/-- A small concrete regression market-making state (timestamp 400) used by
witnesses. -/
def lr_w : LRState :=
  (LinearRegressionMM.init "STARFRUIT" 20 400 0 [(5000, 10)] [(5002, -10)]
    5000 10 1 2 1 5 10 1).getD default

/-- A small concrete basket state whose premium sits exactly at the
configured long-run mean. -/
def basket_w : BasketState :=
  { basket := { mm_w with fair_value := mm_w.mid_vwap },
    premium_mean := 385, premium_std := 75, alpha := 1, beta := 0,
    sl_target := 0, carry := 2, basket_nav := mm_w.mid_vwap - 385,
    premium := 385, z_score := 0 }

/-- A book side on which `Strategy.__init__` cannot raise: non-empty and
with nonzero total volume. -/
def goodBook (book : List (ℤ × ℤ)) : Prop :=
  book ≠ [] ∧ listVolume book ≠ 0

instance (book : List (ℤ × ℤ)) : Decidable (goodBook book) := by
  unfold goodBook
  infer_instance

/-- Every instrument traded by `Trader.run` has two good book sides. -/
def WFBooks (st : TradingState) : Prop :=
  ∀ sym ∈ ["AMETHYSTS", "STARFRUIT", "ORCHIDS", "GIFT_BASKET",
           "CHOCOLATE", "STRAWBERRIES", "ROSES"],
    goodBook (st.bids sym) ∧ goodBook (st.asks sym)

instance (st : TradingState) : Decidable (WFBooks st) := by
  unfold WFBooks
  infer_instance

/-- ORCHIDS observation matching the spec's long-arbitrage example: external
bid 100 against a best exchange ask of 95, all costs zero. -/
def obs_long : ConversionObservation :=
  { bidPrice := 100, askPrice := 200, transportFees := 0, exportTariff := 0,
    importTariff := 0, sunlight := 0, humidity := 0 }

/-- OTC strategy state of the spec's long-arbitrage example. -/
def otc_long : OTCState :=
  (OTCArbitrage.init "ORCHIDS" 100 0 0 [(90, 5)] [(95, -5)] obs_long 0 1 1 1).getD default

/-- Output of a `Trader.run` call on `state0` from a trader whose in-memory
rolling history is non-empty. -/
def run_out_ne : RunOutput :=
  (Trader.run [0] state0).getD default

/-! Guard lemmas for the market-taking sub-strategies. -/

theorem scratch_eq_of_not_in_band (s : MMState) (m : Bool)
    (h : ¬(-s.sl_inventory ≤ s.position ∧ s.position ≤ s.sl_inventory)) :
    MarketMaking.scratch_under_valued s m = s := by
  unfold MarketMaking.scratch_under_valued
  rw [if_neg h]

theorem stop_loss_eq_of_in_band (s : MMState) (i : Bool)
    (h1 : ¬s.sl_inventory < s.position) (h2 : ¬s.position < -s.sl_inventory) :
    MarketMaking.stop_loss s i = s := by
  unfold MarketMaking.stop_loss
  rw [if_neg (fun hc => h1 hc.1), if_neg (fun hc => h2 hc.1)]

theorem aggressive_stop_loss_eq_of_in_band (b : BasketState)
    (h1 : ¬b.basket.sl_inventory < b.basket.position)
    (h2 : ¬b.basket.position < -b.basket.sl_inventory) :
    BasketTrading.aggressive_stop_loss b = b := by
  unfold BasketTrading.aggressive_stop_loss
  rw [if_neg h1, if_neg h2]

theorem scratch_position (s : MMState) (m : Bool) :
    (MarketMaking.scratch_under_valued s m).position = s.position := by
  unfold MarketMaking.scratch_under_valued
  simp only []
  split_ifs <;> rfl

theorem scratch_position_limit (s : MMState) (m : Bool) :
    (MarketMaking.scratch_under_valued s m).position_limit = s.position_limit := by
  unfold MarketMaking.scratch_under_valued
  simp only []
  split_ifs <;> rfl

theorem scratch_sl_inventory (s : MMState) (m : Bool) :
    (MarketMaking.scratch_under_valued s m).sl_inventory = s.sl_inventory := by
  unfold MarketMaking.scratch_under_valued
  simp only []
  split_ifs <;> rfl

theorem stop_loss_position (s : MMState) (i : Bool) :
    (MarketMaking.stop_loss s i).position = s.position := by
  unfold MarketMaking.stop_loss
  simp only []
  split_ifs <;> rfl

theorem stop_loss_position_limit (s : MMState) (i : Bool) :
    (MarketMaking.stop_loss s i).position_limit = s.position_limit := by
  unfold MarketMaking.stop_loss
  simp only []
  split_ifs <;> rfl

/-- C10: within one tick, `scratch_under_valued` emits only inside the
stop-loss inventory band, `stop_loss` emits only strictly outside it, the
two guard conditions are disjoint for every position, and hence in the
scratch-then-stop-loss sequence at most one of the two appends an order. -/
theorem claim10_scratch_stoploss_disjoint (s : MMState) (mid ign : Bool) :
    ((MarketMaking.scratch_under_valued s mid).orders ≠ s.orders →
      -s.sl_inventory ≤ s.position ∧ s.position ≤ s.sl_inventory) ∧
    ((MarketMaking.stop_loss s ign).orders ≠ s.orders →
      s.sl_inventory < s.position ∨ s.position < -s.sl_inventory) ∧
    (¬((-s.sl_inventory ≤ s.position ∧ s.position ≤ s.sl_inventory) ∧
        (s.sl_inventory < s.position ∨ s.position < -s.sl_inventory))) ∧
    ((MarketMaking.scratch_under_valued s mid).orders = s.orders ∨
      (MarketMaking.stop_loss (MarketMaking.scratch_under_valued s mid) ign).orders =
        (MarketMaking.scratch_under_valued s mid).orders) := by
  refine ⟨?_, ?_, by omega, ?_⟩
  · intro h
    by_contra hg
    exact h (by rw [scratch_eq_of_not_in_band s mid hg])
  · intro h
    by_contra hg
    push_neg at hg
    exact h (by rw [stop_loss_eq_of_in_band s ign (by omega) (by omega)])
  · by_cases hb : -s.sl_inventory ≤ s.position ∧ s.position ≤ s.sl_inventory
    · right
      rw [stop_loss_eq_of_in_band]
      · rw [scratch_sl_inventory, scratch_position]
        omega
      · rw [scratch_sl_inventory, scratch_position]
        omega
    · left
      rw [scratch_eq_of_not_in_band s mid hb]

/-- Witness for C10 at a concrete market-making state. -/
theorem claim10_scratch_stoploss_disjoint_witness :
    (MarketMaking.scratch_under_valued mm_w true).orders = mm_w.orders ∨
      (MarketMaking.stop_loss (MarketMaking.scratch_under_valued mm_w true) true).orders =
        (MarketMaking.scratch_under_valued mm_w true).orders :=
  (claim10_scratch_stoploss_disjoint mm_w true true).2.2.2

/-- C4: `market_make` appends exactly a bid priced `ceil(fair - mm_spread)`
and an ask priced `floor(fair + mm_spread)`, and whenever `mm_spread ≥ 1`
neither crosses the fair value. -/
theorem claim4_quotes_never_cross_fair (s : MMState) (h : 1 ≤ s.mm_spread) :
    ∃ bid ask : Order,
      (MarketMaking.market_make s).orders = s.orders ++ [bid, ask] ∧
      bid.price = ⌈s.fair_value - s.mm_spread⌉ ∧
      ask.price = ⌊s.fair_value + s.mm_spread⌋ ∧
      (bid.price : ℚ) ≤ s.fair_value ∧ s.fair_value ≤ (ask.price : ℚ) := by
  refine ⟨_, _, rfl, rfl, rfl, ?_, ?_⟩
  · have h1 : (⌈s.fair_value - s.mm_spread⌉ : ℚ) < s.fair_value - s.mm_spread + 1 :=
      Int.ceil_lt_add_one _
    linarith
  · have h2 : s.fair_value + s.mm_spread - 1 < (⌊s.fair_value + s.mm_spread⌋ : ℚ) :=
      Int.sub_one_lt_floor _
    linarith

/-- Witness for C4 at a concrete market-making state with spread 2. -/
theorem claim4_quotes_never_cross_fair_witness :
    (1 : ℚ) ≤ mm_w.mm_spread ∧
    ∃ bid ask : Order,
      (MarketMaking.market_make mm_w).orders = mm_w.orders ++ [bid, ask] ∧
      bid.price = ⌈mm_w.fair_value - mm_w.mm_spread⌉ ∧
      ask.price = ⌊mm_w.fair_value + mm_w.mm_spread⌋ ∧
      (bid.price : ℚ) ≤ mm_w.fair_value ∧ mm_w.fair_value ≤ (ask.price : ℚ) :=
  ⟨by decide, claim4_quotes_never_cross_fair mm_w (by decide)⟩

/-- C7: with a history shorter than the minimum window, `predict_price`
sets the fair value to exactly the current mid VWAP. -/
theorem claim7_regression_fallback (s : LRState) (history : List ℚ)
    (h : history.length < s.min_window_size) :
    LinearRegressionMM.predict_price s history = some { s with fair_value := s.mid_vwap } := by
  unfold LinearRegressionMM.predict_price
  rw [if_neg (by omega)]

/-- Witness for C7: three points against a minimum window of five. -/
theorem claim7_regression_fallback_witness :
    ([(1 : ℚ), 2, 3].length < lr_w.min_window_size) ∧
    LinearRegressionMM.predict_price lr_w [1, 2, 3] =
      some { lr_w with fair_value := lr_w.mid_vwap } :=
  ⟨by decide, claim7_regression_fallback lr_w [1, 2, 3] (by decide)⟩

/-- C9: when the premium equals the configured long-run mean, the pricing
correction of `calculate_fair_value` is zero and the basket fair value stays
at the basket mid VWAP it was initialised to. -/
theorem claim9_zero_zscore_zero_correction (b : BasketState)
    (hfv : b.basket.fair_value = b.basket.mid_vwap)
    (hp : b.premium = b.premium_mean) :
    (BasketTrading.calculate_fair_value b).basket.fair_value = b.basket.mid_vwap := by
  unfold BasketTrading.calculate_fair_value
  dsimp only
  rw [hp, sub_self, neg_zero, zero_mul, add_zero, hfv]

/-- Witness for C9 at a concrete basket state with premium equal to the
mean 385. -/
theorem claim9_zero_zscore_zero_correction_witness :
    basket_w.basket.fair_value = basket_w.basket.mid_vwap ∧
    basket_w.premium = basket_w.premium_mean ∧
    (BasketTrading.calculate_fair_value basket_w).basket.fair_value =
      basket_w.basket.mid_vwap :=
  ⟨rfl, rfl, claim9_zero_zscore_zero_correction basket_w rfl rfl⟩

/-! Exactness of ordinary least squares on affine data, for the regression
fair-value claim. -/

theorem sum_map_affine (a b : ℚ) (xs : List ℚ) :
    (xs.map (fun x => a * x + b)).sum = a * xs.sum + xs.length * b := by
  induction xs with
  | nil => simp
  | cons x t ih =>
      simp only [List.map_cons, List.sum_cons, List.length_cons, ih]
      push_cast
      ring

theorem sum_sq_dev_nonneg (c : ℚ) (xs : List ℚ) :
    0 ≤ (xs.map (fun x => (x - c) ^ 2)).sum := by
  induction xs with
  | nil => simp
  | cons x t ih =>
      simp only [List.map_cons, List.sum_cons]
      exact add_nonneg (sq_nonneg _) ih

theorem eq_of_sum_sq_dev_eq_zero {c : ℚ} :
    ∀ {xs : List ℚ}, (xs.map (fun x => (x - c) ^ 2)).sum = 0 → ∀ x ∈ xs, x = c := by
  intro xs
  induction xs with
  | nil => simp
  | cons y t ih =>
      intro h x hx
      simp only [List.map_cons, List.sum_cons] at h
      have h1 : 0 ≤ (t.map (fun x => (x - c) ^ 2)).sum := sum_sq_dev_nonneg c t
      have h2 : (y - c) ^ 2 = 0 := by nlinarith [sq_nonneg (y - c)]
      rcases List.mem_cons.mp hx with heq | hx
      · have h3 : y - c = 0 := sq_eq_zero_iff.mp h2
        rw [heq]
        linarith
      · exact ih (by nlinarith [sq_nonneg (y - c)]) x hx

theorem sum_zip_map_self (f : ℚ → ℚ) (g : ℚ × ℚ → ℚ) (xs : List ℚ) :
    ((xs.zip (xs.map f)).map g).sum = (xs.map (fun x => g (x, f x))).sum := by
  induction xs with
  | nil => simp
  | cons x t ih => simp [ih]

/-- Ordinary least squares recovers an affine relation exactly: when
`ys = a * xs + b` pointwise and the regressors are not all equal,
`linear_regression` returns precisely `(a, b)`. -/
theorem linear_regression_exact (a b : ℚ) (xs : List ℚ) (h2 : 2 ≤ xs.length)
    (x y : ℚ) (hx : x ∈ xs) (hy : y ∈ xs) (hxy : x ≠ y) :
    linear_regression xs (xs.map (fun u => a * u + b)) = some (a, b) := by
  have hn : ((xs.length : ℚ)) ≠ 0 := Nat.cast_ne_zero.mpr (by omega)
  unfold linear_regression
  rw [if_pos ⟨(List.length_map _ _).symm, h2⟩]
  simp only []
  have hybar : (xs.map (fun u => a * u + b)).sum / (xs.length : ℚ) =
      a * (xs.sum / (xs.length : ℚ)) + b := by
    rw [sum_map_affine]
    field_simp
    ring
  have hterm :
      (fun p : ℚ × ℚ => (p.1 - xs.sum / (xs.length : ℚ)) *
        (p.2 - (xs.map (fun u => a * u + b)).sum / (xs.length : ℚ))) =
      (fun p : ℚ × ℚ => (p.1 - xs.sum / (xs.length : ℚ)) *
        (p.2 - (a * (xs.sum / (xs.length : ℚ)) + b))) := by
    rw [hybar]
  rw [hterm, sum_zip_map_self]
  have hfun : (fun u : ℚ => (u - xs.sum / (xs.length : ℚ)) *
        (a * u + b - (a * (xs.sum / (xs.length : ℚ)) + b))) =
      fun u : ℚ => a * ((u - xs.sum / (xs.length : ℚ)) ^ 2) := by
    funext u
    ring
  rw [hfun, List.sum_map_mul_left]
  have hsxx : (xs.map (fun u => (u - xs.sum / (xs.length : ℚ)) ^ 2)).sum ≠ 0 := by
    intro h0
    have hall := eq_of_sum_sq_dev_eq_zero h0
    exact hxy ((hall x hx).trans (hall y hy).symm)
  rw [if_neg hsxx]
  have hslope : a * (xs.map (fun u => (u - xs.sum / (xs.length : ℚ)) ^ 2)).sum /
      (xs.map (fun u => (u - xs.sum / (xs.length : ℚ)) ^ 2)).sum = a :=
    mul_div_cancel_right₀ a hsxx
  rw [hslope, hybar]
  ring_nf

/-- C8: on a price history that is perfectly linear in the tick index and at
least as long as the minimum window, `predict_price` with shift 1 sets the
fair value to exactly the next in-sequence value. -/
theorem claim8_regression_exact_linear (s : LRState) (p0 d : ℚ) (k : ℤ) (n : ℕ)
    (hts : s.timestamp = 100 * k) (hshift : s.predict_shift = 1)
    (hmin : s.min_window_size ≤ n) (hn2 : 2 ≤ n) :
    LinearRegressionMM.predict_price s ((List.range n).map (fun j : ℕ => p0 + d * (j : ℚ))) =
      some { s with fair_value := p0 + d * (n : ℚ) } := by
  unfold LinearRegressionMM.predict_price
  simp only [List.length_map, List.length_range]
  rw [if_pos hmin]
  have ht : s.timestamp / 100 = k := by
    rw [hts]
    omega
  rw [ht]
  have hys : (List.range n).map (fun j : ℕ => p0 + d * (j : ℚ)) =
      ((List.range n).map (fun i : ℕ => 100 * ((k : ℚ) - (n : ℚ) + 1 + (i : ℚ)))).map
        (fun u => (d / 100) * u + (p0 - d * ((k : ℚ) - (n : ℚ) + 1))) := by
    rw [List.map_map]
    apply List.map_congr_left
    intro j _
    simp only [Function.comp_apply]
    ring
  rw [hys]
  rw [linear_regression_exact (d / 100) (p0 - d * ((k : ℚ) - (n : ℚ) + 1)) _
    (by simpa using hn2)
    (100 * ((k : ℚ) - (n : ℚ) + 1 + ((0 : ℕ) : ℚ)))
    (100 * ((k : ℚ) - (n : ℚ) + 1 + ((1 : ℕ) : ℚ)))
    (List.mem_map.mpr ⟨0, List.mem_range.mpr (by omega), rfl⟩)
    (List.mem_map.mpr ⟨1, List.mem_range.mpr (by omega), rfl⟩)
    (by push_cast; intro h; linarith)]
  dsimp only
  have hval : (d / 100) * ((s.timestamp : ℚ) + 100 * (s.predict_shift : ℚ)) +
      (p0 - d * ((k : ℚ) - (n : ℚ) + 1)) = p0 + d * (n : ℚ) := by
    rw [hts, hshift]
    push_cast
    ring
  rw [hval]

/-! Ledger lemmas for the position-limit invariant. -/

theorem ordersSum_append_one (l : List Order) (o : Order) :
    ordersSum (l ++ [o]) = ordersSum l + o.quantity := by
  simp [ordersSum]

theorem ordersSum_append_two (l : List Order) (o1 o2 : Order) :
    ordersSum (l ++ [o1, o2]) = ordersSum l + o1.quantity + o2.quantity := by
  simp [ordersSum]
  ring

theorem ledger_expected_in_limit {t : StrategyState} (h : LedgerInv t) :
    InLimit t.position_limit t.expected_position := by
  unfold LedgerInv at h
  unfold InLimit
  omega

/-- `scratch_under_valued` turns a fresh in-limit ledger into a sound one:
the emitted quantity (if any) is clamped into the remaining same-direction
capacity. -/
theorem scratch_ledger (s : MMState) (m : Bool)
    (hfr : FreshLedger s.toStrategyState) (hpos : InLimit s.position_limit s.position) :
    LedgerInv (MarketMaking.scratch_under_valued s m).toStrategyState := by
  obtain ⟨he, hb, hs, ho⟩ := hfr
  obtain ⟨h1, h2⟩ := hpos
  unfold MarketMaking.scratch_under_valued
  simp only []
  split_ifs <;>
    (unfold LedgerInv
     try dsimp only
     simp only [ordersSum, ho, he, hb, hs, List.map_append, List.sum_append, List.map_cons,
       List.sum_cons, List.map_nil, List.sum_nil, List.nil_append]
     try dsimp only
     omega)

/-- `stop_loss` turns a fresh in-limit ledger into a sound one: it
liquidates from strictly outside the band back toward it. -/
theorem stop_loss_ledger (s : MMState) (i : Bool)
    (hfr : FreshLedger s.toStrategyState) (hpos : InLimit s.position_limit s.position)
    (hsl : 0 ≤ s.sl_inventory)
    (hbq : 0 ≤ lookupQty s.bids s.best_bid) (haq : lookupQty s.asks s.best_ask ≤ 0) :
    LedgerInv (MarketMaking.stop_loss s i).toStrategyState := by
  obtain ⟨he, hb, hs, ho⟩ := hfr
  obtain ⟨h1, h2⟩ := hpos
  unfold MarketMaking.stop_loss
  simp only []
  split_ifs <;>
    (unfold LedgerInv
     try dsimp only
     simp only [ordersSum, ho, he, hb, hs, List.map_append, List.sum_append, List.map_cons,
       List.sum_cons, List.map_nil, List.sum_nil, List.nil_append]
     try dsimp only
     omega)

theorem aggressive_position (b : BasketState) :
    (BasketTrading.aggressive_stop_loss b).basket.position = b.basket.position := by
  unfold BasketTrading.aggressive_stop_loss
  split_ifs <;> rfl

theorem aggressive_position_limit (b : BasketState) :
    (BasketTrading.aggressive_stop_loss b).basket.position_limit = b.basket.position_limit := by
  unfold BasketTrading.aggressive_stop_loss
  split_ifs <;> rfl

/-- `aggressive_stop_loss` turns a fresh in-limit basket ledger into a sound
one when the target inventory lies inside both the limit and the band. -/
theorem aggressive_ledger (b : BasketState)
    (hfr : FreshLedger b.basket.toStrategyState)
    (hpos : InLimit b.basket.position_limit b.basket.position)
    (hbv : 0 ≤ b.basket.bid_volume) (hav : b.basket.ask_volume ≤ 0)
    (htar : InLimit b.basket.position_limit b.sl_target)
    (htar2 : b.sl_target ≤ b.basket.sl_inventory) :
    LedgerInv (BasketTrading.aggressive_stop_loss b).basket.toStrategyState := by
  obtain ⟨he, hb, hs, ho⟩ := hfr
  obtain ⟨h1, h2⟩ := hpos
  obtain ⟨ht1, ht2⟩ := htar
  unfold BasketTrading.aggressive_stop_loss
  simp only []
  split_ifs <;>
    (unfold LedgerInv
     try dsimp only
     simp only [ordersSum, ho, he, hb, hs, List.map_append, List.sum_append, List.map_cons,
       List.sum_cons, List.map_nil, List.sum_nil, List.nil_append]
     try dsimp only
     omega)

set_option maxHeartbeats 1000000 in
/-- The four-way capacity bound of `market_make`: whatever skew is applied,
the two quoted sizes keep the full-fill position inside the limit given a
sound ledger from the earlier market-taking steps. -/
theorem market_make_ledger (s : MMState) (hinv : LedgerInv s.toStrategyState) :
    (MarketMaking.market_make s).expected_position = s.expected_position ∧
    (MarketMaking.market_make s).position = s.position ∧
    (MarketMaking.market_make s).position_limit = s.position_limit ∧
    InLimit s.position_limit (s.position + ordersSum (MarketMaking.market_make s).orders) := by
  obtain ⟨hsb, hss, hexp, hsum, hcapb, hcaps⟩ := hinv
  refine ⟨rfl, rfl, rfl, ?_⟩
  unfold MarketMaking.market_make
  dsimp only
  rw [ordersSum_append_two, hsum]
  unfold InLimit
  dsimp only
  omega

set_option maxHeartbeats 1000000 in
/-- The four-way capacity bound of the OTC `market_make`. -/
theorem otc_market_make_ledger (s : OTCState) (hinv : LedgerInv s.toStrategyState) :
    (OTCArbitrage.market_make s).expected_position = s.expected_position ∧
    (OTCArbitrage.market_make s).position = s.position ∧
    (OTCArbitrage.market_make s).position_limit = s.position_limit ∧
    InLimit s.position_limit (s.position + ordersSum (OTCArbitrage.market_make s).orders) := by
  obtain ⟨hsb, hss, hexp, hsum, hcapb, hcaps⟩ := hinv
  refine ⟨rfl, rfl, rfl, ?_⟩
  unfold OTCArbitrage.market_make
  dsimp only
  rw [ordersSum_append_two, hsum]
  unfold InLimit
  dsimp only
  omega

/-- Witness for C8: the history 100,200,300,400,500 at timestamp 400 with
window 5 predicts 600. -/
theorem claim8_regression_exact_linear_witness :
    lr_w.timestamp = 100 * 4 ∧ lr_w.predict_shift = 1 ∧ lr_w.min_window_size ≤ 5 ∧
    LinearRegressionMM.predict_price lr_w
        ((List.range 5).map (fun j : ℕ => 100 + 100 * (j : ℚ))) =
      some { lr_w with fair_value := 100 + 100 * ((5 : ℕ) : ℚ) } :=
  ⟨by decide, by decide, by decide,
    claim8_regression_exact_linear lr_w 100 100 4 5 (by decide) (by decide) (by decide)
      (by omega)⟩

/-! Loop invariants for the arbitrage level walk. -/

/-- The long take loop keeps the ledger sound: every take is nonnegative and
clamped into the remaining long capacity, and no sells are emitted. -/
theorem arb_enter_long_inv (levels : List (ℤ × ℤ)) :
    ∀ s : OTCState,
      InLimit s.position_limit s.position →
      InLimit s.position_limit s.expected_position →
      0 ≤ s.sum_buy_qty → s.sum_sell_qty = 0 →
      s.expected_position = s.position + s.sum_buy_qty →
      ordersSum s.orders = s.sum_buy_qty →
      (OTCArbitrage.arb_enter_long s levels).position = s.position ∧
      (OTCArbitrage.arb_enter_long s levels).position_limit = s.position_limit ∧
      InLimit s.position_limit (OTCArbitrage.arb_enter_long s levels).expected_position ∧
      0 ≤ (OTCArbitrage.arb_enter_long s levels).sum_buy_qty ∧
      (OTCArbitrage.arb_enter_long s levels).sum_sell_qty = 0 ∧
      (OTCArbitrage.arb_enter_long s levels).expected_position =
        s.position + (OTCArbitrage.arb_enter_long s levels).sum_buy_qty ∧
      ordersSum (OTCArbitrage.arb_enter_long s levels).orders =
        (OTCArbitrage.arb_enter_long s levels).sum_buy_qty := by
  induction levels with
  | nil =>
      intro s h1 h2 h3 h4 h5 h6
      exact ⟨rfl, rfl, h2, h3, h4, h5, h6⟩
  | cons pq rest ih =>
      intro s h1 h2 h3 h4 h5 h6
      obtain ⟨p, q⟩ := pq
      obtain ⟨h1a, h1b⟩ := h1
      obtain ⟨h2a, h2b⟩ := h2
      rw [OTCArbitrage.arb_enter_long]
      split_ifs with hc
      · exact ih _ ⟨h1a, h1b⟩ ⟨by dsimp only; omega, by dsimp only; omega⟩
          (by dsimp only; omega) (by dsimp only; omega) (by dsimp only; omega)
          (by dsimp only; rw [ordersSum_append_one, h6])
      · exact ⟨rfl, rfl, ⟨h2a, h2b⟩, h3, h4, h5, h6⟩

/-- The short take loop keeps the ledger sound: every take is nonpositive and
clamped into the remaining short capacity, and no buys are emitted. -/
theorem arb_enter_short_inv (levels : List (ℤ × ℤ)) :
    ∀ s : OTCState,
      InLimit s.position_limit s.position →
      InLimit s.position_limit s.expected_position →
      s.sum_buy_qty = 0 → s.sum_sell_qty ≤ 0 →
      s.expected_position = s.position + s.sum_sell_qty →
      ordersSum s.orders = s.sum_sell_qty →
      (OTCArbitrage.arb_enter_short s levels).position = s.position ∧
      (OTCArbitrage.arb_enter_short s levels).position_limit = s.position_limit ∧
      InLimit s.position_limit (OTCArbitrage.arb_enter_short s levels).expected_position ∧
      (OTCArbitrage.arb_enter_short s levels).sum_buy_qty = 0 ∧
      (OTCArbitrage.arb_enter_short s levels).sum_sell_qty ≤ 0 ∧
      (OTCArbitrage.arb_enter_short s levels).expected_position =
        s.position + (OTCArbitrage.arb_enter_short s levels).sum_sell_qty ∧
      ordersSum (OTCArbitrage.arb_enter_short s levels).orders =
        (OTCArbitrage.arb_enter_short s levels).sum_sell_qty := by
  induction levels with
  | nil =>
      intro s h1 h2 h3 h4 h5 h6
      exact ⟨rfl, rfl, h2, h3, h4, h5, h6⟩
  | cons pq rest ih =>
      intro s h1 h2 h3 h4 h5 h6
      obtain ⟨p, q⟩ := pq
      obtain ⟨h1a, h1b⟩ := h1
      obtain ⟨h2a, h2b⟩ := h2
      rw [OTCArbitrage.arb_enter_short]
      split_ifs with hc
      · exact ih _ ⟨h1a, h1b⟩ ⟨by dsimp only; omega, by dsimp only; omega⟩
          (by dsimp only; omega) (by dsimp only; omega) (by dsimp only; omega)
          (by dsimp only; rw [ordersSum_append_one, h6])
      · exact ⟨rfl, rfl, ⟨h2a, h2b⟩, h3, h4, h5, h6⟩

/-- `arbitrage_exchange_enter` turns a fresh in-limit ledger into a sound
one: whichever side is walked, each take stays inside the limit. -/
theorem arbitrage_enter_ledger (s : OTCState)
    (hfr : FreshLedger s.toStrategyState) (hpos : InLimit s.position_limit s.position) :
    (OTCArbitrage.arbitrage_exchange_enter s).position = s.position ∧
    (OTCArbitrage.arbitrage_exchange_enter s).position_limit = s.position_limit ∧
    LedgerInv (OTCArbitrage.arbitrage_exchange_enter s).toStrategyState := by
  obtain ⟨he, hb, hs, ho⟩ := hfr
  obtain ⟨h1, h2⟩ := hpos
  unfold OTCArbitrage.arbitrage_exchange_enter
  simp only []
  have hexp : InLimit s.position_limit s.expected_position := by
    unfold InLimit
    omega
  have hsum0 : ordersSum s.orders = 0 := by
    rw [ho]
    rfl
  split_ifs with hside hlong hshort
  · obtain ⟨hp, hl, hie, hsb, hss, hrel, hos⟩ :=
      arb_enter_long_inv s.asks s ⟨h1, h2⟩ hexp (by omega) hs (by omega) (by omega)
    refine ⟨hp, hl, ?_⟩
    unfold InLimit at hie
    unfold LedgerInv
    omega
  · refine ⟨rfl, rfl, ?_⟩
    unfold LedgerInv
    omega
  · obtain ⟨hp, hl, hie, hsb, hss, hrel, hos⟩ :=
      arb_enter_short_inv s.bids s ⟨h1, h2⟩ hexp hb (by omega) (by omega) (by omega)
    refine ⟨hp, hl, ?_⟩
    unfold InLimit at hie
    unfold LedgerInv
    omega
  · refine ⟨rfl, rfl, ?_⟩
    unfold LedgerInv
    omega

/-! Field preservation through the basket pipeline steps. -/

theorem step_scratch_basket_position (b : BasketState) :
    (BasketTrading.step_scratch b).basket.position = b.basket.position := by
  show (MarketMaking.scratch_under_valued (BasketTrading.calculate_fair_value b).basket
    true).position = b.basket.position
  rw [scratch_position]
  rfl

theorem step_scratch_basket_position_limit (b : BasketState) :
    (BasketTrading.step_scratch b).basket.position_limit = b.basket.position_limit := by
  show (MarketMaking.scratch_under_valued (BasketTrading.calculate_fair_value b).basket
    true).position_limit = b.basket.position_limit
  rw [scratch_position_limit]
  rfl

theorem step_scratch_basket_sl_inventory (b : BasketState) :
    (BasketTrading.step_scratch b).basket.sl_inventory = b.basket.sl_inventory := by
  show (MarketMaking.scratch_under_valued (BasketTrading.calculate_fair_value b).basket
    true).sl_inventory = b.basket.sl_inventory
  rw [scratch_sl_inventory]
  rfl

theorem step_stop_basket_position (b : BasketState) :
    (BasketTrading.step_stop b).basket.position = b.basket.position := by
  unfold BasketTrading.step_stop
  rw [aggressive_position, step_scratch_basket_position]

theorem step_stop_basket_position_limit (b : BasketState) :
    (BasketTrading.step_stop b).basket.position_limit = b.basket.position_limit := by
  unfold BasketTrading.step_stop
  rw [aggressive_position_limit, step_scratch_basket_position_limit]

/-- Market-making pipeline part of the position-limit invariant. -/
theorem mm_pipeline_limits :
    ∀ (s : MMState) (ign : Bool),
      FreshLedger s.toStrategyState → InLimit s.position_limit s.position →
      0 ≤ s.sl_inventory → BookSigns s.toStrategyState →
      InLimit s.position_limit (MarketMaking.scratch_under_valued s false).expected_position ∧
      InLimit s.position_limit
        (MarketMaking.stop_loss (MarketMaking.scratch_under_valued s false) ign).expected_position ∧
      InLimit s.position_limit (MarketMaking.aggregate_orders_state s ign).expected_position ∧
      InLimit s.position_limit
        (s.position + ordersSum (MarketMaking.aggregate_orders_state s ign).orders) := by
  intro s ign hfr hpos hsl hsigns
  obtain ⟨hbq, haq, hbv, hav⟩ := hsigns
  by_cases hband : -s.sl_inventory ≤ s.position ∧ s.position ≤ s.sl_inventory
  · have hL1 : LedgerInv (MarketMaking.scratch_under_valued s false).toStrategyState :=
      scratch_ledger s false hfr hpos
    have heq : MarketMaking.stop_loss (MarketMaking.scratch_under_valued s false) ign =
        MarketMaking.scratch_under_valued s false := by
      apply stop_loss_eq_of_in_band
      · rw [scratch_sl_inventory, scratch_position]
        omega
      · rw [scratch_sl_inventory, scratch_position]
        omega
    have hE1 : InLimit s.position_limit
        (MarketMaking.scratch_under_valued s false).expected_position := by
      have h := ledger_expected_in_limit hL1
      rwa [scratch_position_limit] at h
    refine ⟨hE1, ?_, ?_, ?_⟩
    · rw [heq]
      exact hE1
    · show InLimit s.position_limit (MarketMaking.market_make
        (MarketMaking.stop_loss (MarketMaking.scratch_under_valued s false) ign)).expected_position
      rw [heq]
      exact hE1
    · show InLimit s.position_limit (s.position + ordersSum (MarketMaking.market_make
        (MarketMaking.stop_loss (MarketMaking.scratch_under_valued s false) ign)).orders)
      rw [heq]
      have h4 := (market_make_ledger _ hL1).2.2.2
      rwa [scratch_position_limit, scratch_position] at h4
  · have heq : MarketMaking.scratch_under_valued s false = s :=
      scratch_eq_of_not_in_band s false hband
    have hL1 : LedgerInv (MarketMaking.stop_loss s ign).toStrategyState :=
      stop_loss_ledger s ign hfr hpos hsl hbq haq
    have hE1 : InLimit s.position_limit (MarketMaking.stop_loss s ign).expected_position := by
      have h := ledger_expected_in_limit hL1
      rwa [stop_loss_position_limit] at h
    refine ⟨?_, ?_, ?_, ?_⟩
    · rw [heq, hfr.1]
      exact hpos
    · rw [heq]
      exact hE1
    · show InLimit s.position_limit (MarketMaking.market_make
        (MarketMaking.stop_loss (MarketMaking.scratch_under_valued s false) ign)).expected_position
      rw [heq]
      exact hE1
    · show InLimit s.position_limit (s.position + ordersSum (MarketMaking.market_make
        (MarketMaking.stop_loss (MarketMaking.scratch_under_valued s false) ign)).orders)
      rw [heq]
      have h4 := (market_make_ledger _ hL1).2.2.2
      rwa [stop_loss_position_limit, stop_loss_position] at h4

/-- Basket pipeline part of the position-limit invariant. -/
theorem basket_pipeline_limits :
    ∀ b : BasketState,
      FreshLedger b.basket.toStrategyState → InLimit b.basket.position_limit b.basket.position →
      0 ≤ b.basket.sl_inventory → BookSigns b.basket.toStrategyState →
      InLimit b.basket.position_limit b.sl_target → b.sl_target ≤ b.basket.sl_inventory →
      InLimit b.basket.position_limit (BasketTrading.step_scratch b).basket.expected_position ∧
      InLimit b.basket.position_limit (BasketTrading.step_stop b).basket.expected_position ∧
      InLimit b.basket.position_limit
        (BasketTrading.aggregate_state b).basket.expected_position ∧
      InLimit b.basket.position_limit
        (b.basket.position + ordersSum (BasketTrading.aggregate_state b).basket.orders) := by
  intro b hfr hpos hsl hsigns htar htar2
  obtain ⟨hbq, haq, hbv, hav⟩ := hsigns
  have hfr1 : FreshLedger (BasketTrading.calculate_fair_value b).basket.toStrategyState := hfr
  have hpos1 : InLimit (BasketTrading.calculate_fair_value b).basket.position_limit
      (BasketTrading.calculate_fair_value b).basket.position := hpos
  by_cases hband : -b.basket.sl_inventory ≤ b.basket.position ∧
      b.basket.position ≤ b.basket.sl_inventory
  · have hL1 : LedgerInv (BasketTrading.step_scratch b).basket.toStrategyState :=
      scratch_ledger (BasketTrading.calculate_fair_value b).basket true hfr1 hpos1
    have heq : BasketTrading.step_stop b = BasketTrading.step_scratch b := by
      apply aggressive_stop_loss_eq_of_in_band
      · rw [step_scratch_basket_sl_inventory, step_scratch_basket_position]
        omega
      · rw [step_scratch_basket_sl_inventory, step_scratch_basket_position]
        omega
    have hE1 : InLimit b.basket.position_limit
        (BasketTrading.step_scratch b).basket.expected_position := by
      have h := ledger_expected_in_limit hL1
      rwa [step_scratch_basket_position_limit] at h
    refine ⟨hE1, ?_, ?_, ?_⟩
    · rw [heq]
      exact hE1
    · show InLimit b.basket.position_limit
        (MarketMaking.market_make (BasketTrading.step_stop b).basket).expected_position
      rw [heq]
      exact hE1
    · show InLimit b.basket.position_limit (b.basket.position +
        ordersSum (MarketMaking.market_make (BasketTrading.step_stop b).basket).orders)
      rw [heq]
      have h4 := (market_make_ledger _ hL1).2.2.2
      rwa [step_scratch_basket_position_limit, step_scratch_basket_position] at h4
  · have heq : MarketMaking.scratch_under_valued
        (BasketTrading.calculate_fair_value b).basket true =
        (BasketTrading.calculate_fair_value b).basket :=
      scratch_eq_of_not_in_band _ true hband
    have hscr : BasketTrading.step_scratch b = BasketTrading.calculate_fair_value b := by
      show { BasketTrading.calculate_fair_value b with
          basket := MarketMaking.scratch_under_valued
            (BasketTrading.calculate_fair_value b).basket true } =
        BasketTrading.calculate_fair_value b
      rw [heq]
    have hL1 : LedgerInv (BasketTrading.step_stop b).basket.toStrategyState := by
      unfold BasketTrading.step_stop
      rw [hscr]
      exact aggressive_ledger (BasketTrading.calculate_fair_value b) hfr1 hpos1 hbv hav htar htar2
    have hE1 : InLimit b.basket.position_limit
        (BasketTrading.step_stop b).basket.expected_position := by
      have h := ledger_expected_in_limit hL1
      rwa [step_stop_basket_position_limit] at h
    refine ⟨?_, hE1, ?_, ?_⟩
    · rw [hscr]
      show InLimit b.basket.position_limit b.basket.expected_position
      rw [hfr.1]
      exact hpos
    · show InLimit b.basket.position_limit
        (MarketMaking.market_make (BasketTrading.step_stop b).basket).expected_position
      exact hE1
    · show InLimit b.basket.position_limit (b.basket.position +
        ordersSum (MarketMaking.market_make (BasketTrading.step_stop b).basket).orders)
      have h4 := (market_make_ledger _ hL1).2.2.2
      rwa [step_stop_basket_position_limit, step_stop_basket_position] at h4

/-- OTC arbitrage pipeline part of the position-limit invariant. -/
theorem otc_pipeline_limits :
    ∀ s : OTCState,
      FreshLedger s.toStrategyState → InLimit s.position_limit s.position →
      InLimit s.position_limit (OTCArbitrage.arbitrage_exchange_enter s).expected_position ∧
      InLimit s.position_limit (OTCArbitrage.aggregate_state s).expected_position ∧
      InLimit s.position_limit
        (s.position + ordersSum (OTCArbitrage.aggregate_state s).orders) := by
  intro s hfr hpos
  obtain ⟨hp, hl, hLI⟩ := arbitrage_enter_ledger s hfr hpos
  have hE1 : InLimit s.position_limit
      (OTCArbitrage.arbitrage_exchange_enter s).expected_position := by
    have h := ledger_expected_in_limit hLI
    rwa [hl] at h
  refine ⟨hE1, hE1, ?_⟩
  have h4 := (otc_market_make_ledger _ hLI).2.2.2
  rw [hp, hl] at h4
  exact h4

/-- C1: each sizing step of every pipeline (scratch, stop loss, aggressive
basket stop loss, arbitrage takes) keeps `ExpectedPosition` within the
symmetric position limit, and a full fill of every order emitted in the tick
(including the closing market-make quotes) leaves the position within the
limit. -/
theorem claim1_position_limit_invariant :
    (∀ (s : MMState) (ign : Bool),
      FreshLedger s.toStrategyState → InLimit s.position_limit s.position →
      0 ≤ s.sl_inventory → BookSigns s.toStrategyState →
      InLimit s.position_limit (MarketMaking.scratch_under_valued s false).expected_position ∧
      InLimit s.position_limit
        (MarketMaking.stop_loss (MarketMaking.scratch_under_valued s false) ign).expected_position ∧
      InLimit s.position_limit (MarketMaking.aggregate_orders_state s ign).expected_position ∧
      InLimit s.position_limit
        (s.position + ordersSum (MarketMaking.aggregate_orders_state s ign).orders)) ∧
    (∀ b : BasketState,
      FreshLedger b.basket.toStrategyState → InLimit b.basket.position_limit b.basket.position →
      0 ≤ b.basket.sl_inventory → BookSigns b.basket.toStrategyState →
      InLimit b.basket.position_limit b.sl_target → b.sl_target ≤ b.basket.sl_inventory →
      InLimit b.basket.position_limit (BasketTrading.step_scratch b).basket.expected_position ∧
      InLimit b.basket.position_limit (BasketTrading.step_stop b).basket.expected_position ∧
      InLimit b.basket.position_limit
        (BasketTrading.aggregate_state b).basket.expected_position ∧
      InLimit b.basket.position_limit
        (b.basket.position + ordersSum (BasketTrading.aggregate_state b).basket.orders)) ∧
    (∀ s : OTCState,
      FreshLedger s.toStrategyState → InLimit s.position_limit s.position →
      InLimit s.position_limit (OTCArbitrage.arbitrage_exchange_enter s).expected_position ∧
      InLimit s.position_limit (OTCArbitrage.aggregate_state s).expected_position ∧
      InLimit s.position_limit
        (s.position + ordersSum (OTCArbitrage.aggregate_state s).orders)) :=
  ⟨mm_pipeline_limits, basket_pipeline_limits, otc_pipeline_limits⟩

/-- Witness for C1 at concrete market-making, basket and OTC states. -/
theorem claim1_position_limit_invariant_witness :
    (InLimit mm_w.position_limit
      (mm_w.position + ordersSum (MarketMaking.aggregate_orders_state mm_w true).orders)) ∧
    (InLimit basket_w.basket.position_limit (basket_w.basket.position +
      ordersSum (BasketTrading.aggregate_state basket_w).basket.orders)) ∧
    (InLimit otc_short.position_limit
      (otc_short.position + ordersSum (OTCArbitrage.aggregate_state otc_short).orders)) :=
  ⟨(claim1_position_limit_invariant.1 mm_w true (by decide) (by decide) (by decide)
      (by decide)).2.2.2,
   (claim1_position_limit_invariant.2.1 basket_w (by decide) (by decide) (by decide)
      (by decide) (by decide) (by decide)).2.2.2,
   (claim1_position_limit_invariant.2.2 otc_short (by decide) (by decide)).2.2⟩

/-! Totality lemmas: each constructor and the regression succeed on good
books, so `run` completes whenever the snapshot is well formed. -/

theorem strategy_init_some (symbol : String) (L ts pos : ℤ) (bids asks : List (ℤ × ℤ))
    (hb : goodBook bids) (ha : goodBook asks) :
    ∃ t, Strategy.init symbol L ts pos bids asks = some t := by
  unfold Strategy.init
  rw [if_pos ⟨hb.1, ha.1, hb.2, ha.2⟩]
  exact ⟨_, rfl⟩

theorem mm_init_some (symbol : String) (L ts pos : ℤ) (bids asks : List (ℤ × ℤ))
    (fv : ℚ) (sli : ℤ) (sls mms osk : ℚ) (hb : goodBook bids) (ha : goodBook asks) :
    ∃ t, MarketMaking.init symbol L ts pos bids asks fv sli sls mms osk = some t := by
  obtain ⟨t, ht⟩ := strategy_init_some symbol L ts pos bids asks hb ha
  unfold MarketMaking.init
  rw [ht, Option.map_some']
  exact ⟨_, rfl⟩

theorem lr_init_some (symbol : String) (L ts pos : ℤ) (bids asks : List (ℤ × ℤ))
    (fv : ℚ) (sli : ℤ) (sls mms osk : ℚ) (minw maxw : ℕ) (shift : ℤ)
    (hb : goodBook bids) (ha : goodBook asks) :
    ∃ t, LinearRegressionMM.init symbol L ts pos bids asks fv sli sls mms osk
        minw maxw shift = some t ∧ t.min_window_size = minw := by
  obtain ⟨t, ht⟩ := mm_init_some symbol L ts pos bids asks fv sli sls mms osk hb ha
  unfold LinearRegressionMM.init
  rw [ht, Option.map_some']
  exact ⟨_, rfl, rfl⟩

theorem otc_init_some (symbol : String) (L ts pos : ℤ) (bids asks : List (ℤ × ℤ))
    (obs : ConversionObservation) (ucs est mine mme : ℚ)
    (hb : goodBook bids) (ha : goodBook asks) :
    ∃ t, OTCArbitrage.init symbol L ts pos bids asks obs ucs est mine mme = some t := by
  obtain ⟨t, ht⟩ := strategy_init_some symbol L ts pos bids asks hb ha
  unfold OTCArbitrage.init
  rw [ht, Option.map_some']
  exact ⟨_, rfl⟩

theorem linear_regression_some (xs ys : List ℚ) (hlen : xs.length = ys.length)
    (h2 : 2 ≤ xs.length) (x y : ℚ) (hx : x ∈ xs) (hy : y ∈ xs) (hxy : x ≠ y) :
    ∃ si, linear_regression xs ys = some si := by
  unfold linear_regression
  rw [if_pos ⟨hlen, h2⟩]
  simp only []
  have hsxx : (xs.map (fun u => (u - xs.sum / (xs.length : ℚ)) ^ 2)).sum ≠ 0 := by
    intro h0
    have hall := eq_of_sum_sq_dev_eq_zero h0
    exact hxy ((hall x hx).trans (hall y hy).symm)
  rw [if_neg hsxx]
  exact ⟨_, rfl⟩

theorem predict_price_some (s : LRState) (history : List ℚ) (h2 : 2 ≤ s.min_window_size) :
    ∃ t, LinearRegressionMM.predict_price s history = some t := by
  unfold LinearRegressionMM.predict_price
  by_cases hmin : s.min_window_size ≤ history.length
  · rw [if_pos hmin]
    simp only []
    obtain ⟨si, hsi⟩ := linear_regression_some
      ((List.range history.length).map
        (fun i : ℕ => 100 * (((s.timestamp / 100 : ℤ) : ℚ) - (history.length : ℚ) + 1 + (i : ℚ))))
      history (by simp) (by simp; omega)
      (100 * (((s.timestamp / 100 : ℤ) : ℚ) - (history.length : ℚ) + 1 + ((0 : ℕ) : ℚ)))
      (100 * (((s.timestamp / 100 : ℤ) : ℚ) - (history.length : ℚ) + 1 + ((1 : ℕ) : ℚ)))
      (List.mem_map.mpr ⟨0, List.mem_range.mpr (by omega), rfl⟩)
      (List.mem_map.mpr ⟨1, List.mem_range.mpr (by omega), rfl⟩)
      (by push_cast; intro h; linarith)
    rw [hsi]
    exact ⟨_, rfl⟩
  · rw [if_neg hmin]
    exact ⟨_, rfl⟩

theorem basket_init_some (st : TradingState) (bsym : String) (L : ℤ) (fv : ℚ) (sli : ℤ)
    (sls mms osk : ℚ) (c1 c2 c3 : String × ℤ × ℚ) (pm ps al be : ℚ) (slt : ℤ) (ca : ℚ)
    (hb0 : goodBook (st.bids bsym)) (ha0 : goodBook (st.asks bsym))
    (hb1 : goodBook (st.bids c1.1)) (ha1 : goodBook (st.asks c1.1))
    (hb2 : goodBook (st.bids c2.1)) (ha2 : goodBook (st.asks c2.1))
    (hb3 : goodBook (st.bids c3.1)) (ha3 : goodBook (st.asks c3.1)) :
    ∃ t, BasketTrading.init st bsym L fv sli sls mms osk [c1, c2, c3] pm ps al be slt ca =
      some t := by
  obtain ⟨b0, hb0'⟩ := mm_init_some bsym L st.timestamp (st.position bsym)
    (st.bids bsym) (st.asks bsym) fv sli sls mms osk hb0 ha0
  obtain ⟨s1, hs1⟩ := strategy_init_some c1.1 c1.2.1 st.timestamp (st.position c1.1)
    (st.bids c1.1) (st.asks c1.1) hb1 ha1
  obtain ⟨s2, hs2⟩ := strategy_init_some c2.1 c2.2.1 st.timestamp (st.position c2.1)
    (st.bids c2.1) (st.asks c2.1) hb2 ha2
  obtain ⟨s3, hs3⟩ := strategy_init_some c3.1 c3.2.1 st.timestamp (st.position c3.1)
    (st.bids c3.1) (st.asks c3.1) hb3 ha3
  unfold BasketTrading.init
  rw [hb0']
  simp only [Option.bind_eq_bind, Option.some_bind]
  simp only [List.mapM_cons, List.mapM_nil, hs1, hs2, hs3, Option.map_some',
    Option.bind_eq_bind, Option.some_bind, Option.pure_def]
  exact ⟨_, rfl⟩

theorem run_after_restore_some (d : List ℚ) (st : TradingState) (hwf : WFBooks st) :
    ∃ o, Trader.run_after_restore d st = some o := by
  have hA := hwf "AMETHYSTS" (by simp)
  have hS := hwf "STARFRUIT" (by simp)
  have hO := hwf "ORCHIDS" (by simp)
  have hG := hwf "GIFT_BASKET" (by simp)
  have hC := hwf "CHOCOLATE" (by simp)
  have hT := hwf "STRAWBERRIES" (by simp)
  have hR := hwf "ROSES" (by simp)
  obtain ⟨am, ham⟩ := mm_init_some "AMETHYSTS" 20 st.timestamp (st.position "AMETHYSTS")
    (st.bids "AMETHYSTS") (st.asks "AMETHYSTS") 10000 20 1 2 1 hA.1 hA.2
  obtain ⟨sf, hsf, hsfmin⟩ := lr_init_some "STARFRUIT" 20 st.timestamp
    (st.position "STARFRUIT") (st.bids "STARFRUIT") (st.asks "STARFRUIT")
    5000 10 1 2 1 5 10 1 hS.1 hS.2
  obtain ⟨sf1, hsf1⟩ := predict_price_some sf
    (Trader.store_data d sf.mid_vwap sf.max_window_size) (by omega)
  obtain ⟨orc, horc⟩ := otc_init_some "ORCHIDS" 100 st.timestamp (st.position "ORCHIDS")
    (st.bids "ORCHIDS") (st.asks "ORCHIDS") (st.observations "ORCHIDS")
    (1 / 10) 1 1 (3 / 2) hO.1 hO.2
  obtain ⟨bt, hbt⟩ := basket_init_some st "GIFT_BASKET" 60 70000 57 1 2 1
    ("CHOCOLATE", 250, 4) ("STRAWBERRIES", 350, 6) ("ROSES", 60, 1)
    385 75 1 0 0 2 hG.1 hG.2 hC.1 hC.2 hT.1 hT.2 hR.1 hR.2
  unfold Trader.run_after_restore
  rw [ham]
  simp only [Option.bind_eq_bind, Option.some_bind]
  rw [hsf]
  simp only [Option.bind_eq_bind, Option.some_bind]
  rw [hsf1]
  simp only [Option.bind_eq_bind, Option.some_bind]
  rw [horc]
  simp only [Option.bind_eq_bind, Option.some_bind]
  rw [hbt]
  simp only [Option.bind_eq_bind, Option.some_bind]
  exact ⟨_, rfl⟩

/-- C2 fails as stated: with an empty AMETHYSTS bid side,
`Strategy.__init__` raises (`max()` of an empty sequence) and `Trader.run`
does not return an order map at all, instead of skipping the dependent
sub-strategies. -/
theorem claim2_total_run_counterexample :
    Trader.run [] state_emptyside = none := by decide

/-- C2 amended: `Trader.run` returns an order map, a conversion number and
carried state whenever every instrument's book has two non-empty sides with
nonzero volume and the restore step does not decode a missing blob; an empty
side fails the whole tick rather than being skipped. -/
theorem claim2_total_run_amended (d : List ℚ) (st : TradingState) (hwf : WFBooks st)
    (hres : st.timestamp < 100 ∨ d = [] ∨ ∃ D, st.traderData = some D) :
    ∃ o, Trader.run d st = some o := by
  unfold Trader.run Trader.restore_data
  by_cases hc : 100 ≤ st.timestamp ∧ d ≠ []
  · obtain ⟨D, hD⟩ : ∃ D, st.traderData = some D := by
      rcases hres with h | h | h
      · omega
      · exact absurd h hc.2
      · exact h
    rw [if_pos hc, hD]
    simp only [Option.bind_eq_bind, Option.some_bind]
    exact run_after_restore_some D st hwf
  · rw [if_neg hc]
    simp only [Option.bind_eq_bind, Option.some_bind]
    exact run_after_restore_some d st hwf

/-- Witness for the amended C2 on a benign snapshot with empty internal
history. -/
theorem claim2_total_run_amended_witness :
    ∃ o, Trader.run [] state0 = some o :=
  claim2_total_run_amended [] state0 (by decide) (Or.inr (Or.inl rfl))

/-- C3: the long walk consumes ask levels as specified (the spec example:
best ask 95 against external bid 100 with zero costs and minimum edge 1 is
taken at 95 for the full size), but the short walk reuses the best bid's
price and resting quantity at every level it visits: with bids `(100, 5)`
and `(99, 4)`, OTC ask 90, zero costs, it emits two orders at price 100 for
5 each instead of consuming `(99, 4)` at its own price and size. -/
theorem claim3_short_arbitrage_walk_bug :
    (OTCArbitrage.arbitrage_exchange_enter otc_long).orders =
      [{ symbol := "ORCHIDS", price := 95, quantity := 5 }] ∧
    (OTCArbitrage.arbitrage_exchange_enter otc_short).orders =
      [{ symbol := "ORCHIDS", price := 100, quantity := -5 },
       { symbol := "ORCHIDS", price := 100, quantity := -5 }] := by
  constructor
  · with_unfolding_all rfl
  · with_unfolding_all rfl

/-- The blob handed back by a completed `Trader.run` call always carries a
non-empty rolling history, since `store_data` has appended this tick's mid
VWAP. -/
theorem run_traderData_ne_nil (d : List ℚ) (st : TradingState) (o : RunOutput)
    (h : Trader.run d st = some o) : o.traderData ≠ [] := by
  unfold Trader.run at h
  simp only [Option.bind_eq_bind, Option.bind_eq_some] at h
  obtain ⟨d1, hd1, h⟩ := h
  unfold Trader.run_after_restore at h
  simp only [Option.bind_eq_bind, Option.bind_eq_some, Option.some.injEq] at h
  obtain ⟨am, ham, sf, hsf, sf1, hsf1, orc, horc, bt, hbt, h⟩ := h
  rw [← h]
  unfold Trader.store_data
  simp

/-- C5 fails as stated: two `Trader.run` calls on the identical snapshot
(timestamp 100, carried blob holding a four-point history) return different
STARFRUIT orders (bid 4999 against bid 5159), because the first call starts
from an empty in-memory history (restore skipped, mid-VWAP fair value) while
the second call, whose in-memory history was filled by the first, decodes
the blob and regresses. -/
theorem claim5_idempotence_counterexample :
    Trader.run [] state0 = some run_out1 ∧
    Trader.run run_out1.traderData state0 = some run_out2 ∧
    run_out1.result ≠ run_out2.result := by
  refine ⟨by with_unfolding_all rfl, by with_unfolding_all rfl, ?_⟩
  intro h
  have h2 := congrArg (fun l => ((l.getD 1 ("", [])).2.getD 0 default).price) h
  dsimp only at h2
  rw [show ((run_out1.result.getD 1 ("", [])).2.getD 0 default).price = 4999 from by
    with_unfolding_all rfl] at h2
  rw [show ((run_out2.result.getD 1 ("", [])).2.getD 0 default).price = 5159 from by
    with_unfolding_all rfl] at h2
  exact absurd h2 (by decide)

/-- C5 amended: the engine is idempotent once the class-level rolling
history is non-empty at a timestamp past the first tick — both calls then
overwrite it by decoding the same carried blob, so the second identical call
reproduces the first call's output exactly. -/
theorem claim5_idempotence_amended (st : TradingState) (d : List ℚ) (o1 : RunOutput)
    (hts : 100 ≤ st.timestamp) (hd : d ≠ []) (h1 : Trader.run d st = some o1) :
    Trader.run o1.traderData st = some o1 := by
  have hne := run_traderData_ne_nil d st o1 h1
  have hconst : Trader.run o1.traderData st = Trader.run d st := by
    unfold Trader.run Trader.restore_data
    rw [if_pos ⟨hts, hne⟩, if_pos ⟨hts, hd⟩]
  rw [hconst, h1]

/-- Witness for the amended C5: with non-empty internal history `[0]` the
second identical call returns the first call's output. -/
theorem claim5_idempotence_amended_witness :
    Trader.run [(0 : ℚ)] state0 = some run_out_ne ∧
    Trader.run run_out_ne.traderData state0 = some run_out_ne :=
  ⟨by with_unfolding_all rfl,
    claim5_idempotence_amended state0 [0] run_out_ne (by decide) (by decide)
      (by with_unfolding_all rfl)⟩

/-- C6 fails as stated: at timestamp 100 with an absent / unparseable blob
and a non-empty in-memory history, `restore_data` decodes the blob, the
decode raises, and the whole tick fails instead of falling back to empty
rolling history. -/
theorem claim6_state_recovery_counterexample :
    Trader.run [1] state_noblob = none := by decide

/-- C6 amended: with an absent / empty / unparseable blob at timestamp
≥ 100, the tick survives exactly when the in-memory rolling history is
empty: restore is then skipped, the engine proceeds on the empty history and
still produces orders; with non-empty in-memory history the decode failure
is fatal. -/
theorem claim6_state_recovery_amended (st : TradingState)
    (_hts : 100 ≤ st.timestamp) (_hblob : st.traderData = none) (hwf : WFBooks st) :
    Trader.restore_data [] st.timestamp st.traderData = some [] ∧
    ∃ o, Trader.run [] st = some o := by
  constructor
  · unfold Trader.restore_data
    rw [if_neg (by simp)]
  · unfold Trader.run Trader.restore_data
    rw [if_neg (by simp)]
    simp only [Option.bind_eq_bind, Option.some_bind]
    exact run_after_restore_some [] st hwf

/-- Witness for the amended C6 on a benign snapshot with no carried blob. -/
theorem claim6_state_recovery_amended_witness :
    Trader.restore_data [] state_noblob.timestamp state_noblob.traderData = some [] ∧
    ∃ o, Trader.run [] state_noblob = some o :=
  claim6_state_recovery_amended state_noblob (by decide) rfl (by decide)

end Prosperity
